import Mathlib

/-!
Shallow embedding of the `texasholdem` repository (files `rules.py`,
`game.py`, `mapper.py`) and verification of its specification claims.

A card is the pair `(suit, rank)` with `suit ∈ 0..3` and `rank ∈ 0..12`,
exactly as in the Python sources.  List-valued Python operations are
modelled on `List`; Python's stable `list.sort(key=..., reverse=True)`
is modelled by a stable insertion sort.
-/

namespace TexasHoldem

/-- Card as in `rules.py`/`game.py`: a `(suit, rank)` pair. -/
abbrev Card := Nat × Nat

/-- Stable insertion of a card into a list sorted by rank descending.
Ties keep the already-present card first, matching Python's stable sort. -/
def insertDesc (c : Card) : List Card → List Card
  | [] => [c]
  | d :: t => if c.2 ≤ d.2 then d :: insertDesc c t else c :: d :: t

/-- Model of Python's stable `cards.sort(key=lambda card: card[1], reverse=True)`. -/
def sortDesc (l : List Card) : List Card :=
  l.foldl (fun acc c => insertDesc c acc) []

/-- Stable insertion of a natural number into an ascending list. -/
def insertAsc (n : Nat) : List Nat → List Nat
  | [] => [n]
  | m :: t => if m ≤ n then m :: insertAsc n t else n :: m :: t

/-- Model of Python's `ranks.sort()` on a list of ranks. -/
def sortAsc (l : List Nat) : List Nat :=
  l.foldl (fun acc n => insertAsc n acc) []

/-- Collapse adjacent duplicates of a sorted list. -/
def dedupSorted : List Nat → List Nat
  | [] => []
  | [a] => [a]
  | a :: b :: t => if a = b then dedupSorted (b :: t) else a :: dedupSorted (b :: t)

/-- Model of `np.unique(ranks)`: the sorted list of distinct values. -/
def uniqueSorted (l : List Nat) : List Nat :=
  dedupSorted (sortAsc l)

/-- Model of `np.argmax(np.bincount(l))`: the smallest value of `l`
whose multiplicity in `l` is maximal (0 when `l` is empty). -/
def argmaxBincount (l : List Nat) : Nat :=
  let m := l.foldl Nat.max 0
  (List.range (m + 1)).foldl (fun best i => if l.count best < l.count i then i else best) 0

/-- Model of `PokerRank.get_highest_card` (`rules.py` lines 295-307):
sort descending by rank and take the first card. -/
def get_highest_card (cards : List Card) : Card :=
  (sortDesc cards).headD (0, 0)

/-- Model of `PokerRank.get_rank_of_highest_card` (`rules.py` lines 310-322):
sort the ranks ascending and take the last one. -/
def get_rank_of_highest_card (cards : List Card) : Nat :=
  (sortAsc (cards.map Prod.snd)).getLastD 0

/-- Model of `PokerRank.is_flush` (`rules.py` lines 69-93). -/
def is_flush (cards : List Card) : Bool × List Card :=
  if cards.length < 5 then (false, [])
  else
    let suits := cards.map Prod.fst
    if suits.any (fun s => decide (5 ≤ suits.count s)) then
      let flush_cards := cards.filter (fun c => c.1 == argmaxBincount suits)
      (true, (sortDesc flush_cards).take 5)
    else (false, [])

/-- Consecutive run test: model of `np.all(np.diff(w) == 1)` on a sorted window. -/
def isRun : List Nat → Bool
  | [] => true
  | [_] => true
  | a :: b :: t => (b == a + 1) && isRun (b :: t)

/-- Model of the inner `unique_ranks` helper of `PokerRank.is_straight`
(`rules.py` lines 118-128): keep the first card of each rank in order of
appearance, then sort descending by rank and take 5. -/
def unique_ranks (cards : List Card) : List Card :=
  let kept := cards.foldl
    (fun (acc : List Nat × List Card) c =>
      if acc.1.contains c.2 then acc else (acc.1 ++ [c.2], acc.2 ++ [c]))
    ([], [])
  (sortDesc kept.2).take 5

/-- Model of `PokerRank.is_straight` (`rules.py` lines 95-146): the three
length-5 windows `ranks[2:7]`, `ranks[1:6]`, `ranks[:5]` of the sorted
distinct ranks are tested for a consecutive run, highest window first. -/
def is_straight (cards : List Card) : Bool × List Card :=
  let ranks := uniqueSorted (cards.map Prod.snd)
  if ranks.length < 5 then (false, [])
  else
    let cards := cards.filter (fun c => ranks.contains c.2)
    let w2 := (ranks.drop 2).take 5
    let w1 := (ranks.drop 1).take 5
    let w0 := ranks.take 5
    if isRun w2 && (w2.length == 5) then
      (true, unique_ranks (cards.filter (fun c => w2.contains c.2)))
    else if isRun w1 && (w1.length == 5) then
      (true, unique_ranks (cards.filter (fun c => w1.contains c.2)))
    else if isRun w0 && (w0.length == 5) then
      (true, unique_ranks (cards.filter (fun c => w0.contains c.2)))
    else (false, [])

/-- Model of `PokerRank.is_royal_flush` (`rules.py` lines 27-46): flush,
then straight on the flush cards, and the highest rank of the whole hand
(not of the straight-flush cards) must be the ace. -/
def is_royal_flush (hand : List Card) : Bool × List Card :=
  let fr := is_flush hand
  let sr := if fr.1 then is_straight fr.2 else (false, [])
  if fr.1 && sr.1 && (get_rank_of_highest_card hand == 12) then (true, sr.2)
  else (false, [])

/-- Model of `PokerRank.is_straight_flush` (`rules.py` lines 48-67). -/
def is_straight_flush (hand : List Card) : Bool × List Card :=
  let fr := is_flush hand
  let sr := if fr.1 then is_straight fr.2 else (false, [])
  if fr.1 && sr.1 then (true, sr.2)
  else (false, [])

/-- Model of `PokerRank.is_4_of_a_kind` (`rules.py` lines 149-172). -/
def is_4_of_a_kind (cards : List Card) : Bool × List Card :=
  let ranks := cards.map Prod.snd
  if (uniqueSorted ranks).any (fun r => ranks.count r == 4) then
    let four_cards := cards.filter (fun c => c.2 == argmaxBincount ranks)
    let rest := cards.filter (fun c => !(four_cards.contains c))
    (true, four_cards ++ [get_highest_card rest])
  else (false, [])

/-- Model of `PokerRank.is_full_house` (`rules.py` lines 174-197): requires a
rank with count exactly 3 AND a rank with count exactly 2; the triple is the
`argmax`-bincount rank and the pair is the `argmax`-bincount rank of the rest. -/
def is_full_house (cards : List Card) : Bool × List Card :=
  let ranks := cards.map Prod.snd
  let uniq := uniqueSorted ranks
  if uniq.any (fun r => ranks.count r == 3) && uniq.any (fun r => ranks.count r == 2) then
    let trips := cards.filter (fun c => c.2 == argmaxBincount ranks)
    let rest := cards.filter (fun c => !(trips.contains c))
    let ranks2 := rest.map Prod.snd
    let pairCards := rest.filter (fun c => c.2 == argmaxBincount ranks2)
    (true, trips ++ pairCards)
  else (false, [])

/-- Model of `PokerRank.is_3_of_a_kind` (`rules.py` lines 199-224). -/
def is_3_of_a_kind (cards : List Card) : Bool × List Card :=
  let ranks := cards.map Prod.snd
  if (uniqueSorted ranks).any (fun r => ranks.count r == 3) then
    let trips := cards.filter (fun c => c.2 == argmaxBincount ranks)
    let rest := sortDesc (cards.filter (fun c => !(trips.contains c)))
    (true, trips ++ rest.take 2)
  else (false, [])

/-- Model of `PokerRank.is_2_pairs` (`rules.py` lines 226-249): requires
exactly two distinct ranks of count 2. -/
def is_2_pairs (cards : List Card) : Bool × List Card :=
  let ranks := cards.map Prod.snd
  let pairs := (uniqueSorted ranks).filter (fun r => ranks.count r == 2)
  if pairs.length == 2 then
    let hand := cards.filter (fun c => pairs.contains c.2)
    let rest := cards.filter (fun c => !(hand.contains c))
    (true, hand ++ [get_highest_card rest])
  else (false, [])

/-- Model of `PokerRank.is_1_pair` (`rules.py` lines 251-278): the pair rank
is `arr[np.where(counts == 2)][0]`, i.e. the smallest rank of count 2. -/
def is_1_pair (cards : List Card) : Bool × List Card :=
  let ranks := cards.map Prod.snd
  let pairs := (uniqueSorted ranks).filter (fun r => ranks.count r == 2)
  if !pairs.isEmpty then
    let hand := cards.filter (fun c => c.2 == pairs.headD 0)
    let rest := sortDesc (cards.filter (fun c => !(hand.contains c)))
    if rest.length < 3 then (true, hand)
    else (true, hand ++ rest.take 3)
  else (false, [])

/-- Model of `PokerRank.is_high_card` (`rules.py` lines 280-293). -/
def is_high_card (cards : List Card) : Bool × List Card :=
  (true, (sortDesc cards).take 5)

/-- Hand categories, weakest to strongest, as in the spec data model. -/
inductive HandCategory
  | HighCard | OnePair | TwoPair | ThreeOfAKind | Straight
  | Flush | FullHouse | FourOfAKind | StraightFlush | RoyalFlush
deriving DecidableEq

/-- Numeric strength order of a category. -/
def HandCategory.toNat : HandCategory → Nat
  | .HighCard => 0
  | .OnePair => 1
  | .TwoPair => 2
  | .ThreeOfAKind => 3
  | .Straight => 4
  | .Flush => 5
  | .FullHouse => 6
  | .FourOfAKind => 7
  | .StraightFlush => 8
  | .RoyalFlush => 9

/-- Category assigned by `PokerRank.rank_hand_of_player` (`rules.py` lines
481-550): the classifiers are tried strongest first and the first match wins. -/
def classify (cards : List Card) : HandCategory :=
  if (is_royal_flush cards).1 then .RoyalFlush
  else if (is_straight_flush cards).1 then .StraightFlush
  else if (is_4_of_a_kind cards).1 then .FourOfAKind
  else if (is_full_house cards).1 then .FullHouse
  else if (is_flush cards).1 then .Flush
  else if (is_straight cards).1 then .Straight
  else if (is_3_of_a_kind cards).1 then .ThreeOfAKind
  else if (is_2_pairs cards).1 then .TwoPair
  else if (is_1_pair cards).1 then .OnePair
  else .HighCard

/-- Best 5-card hand stored by `rank_hand_of_player` for the matched category
(the `self.player_hands[player] = hand` assignment at `rules.py` line 546). -/
def bestHand (cards : List Card) : List Card :=
  if (is_royal_flush cards).1 then (is_royal_flush cards).2
  else if (is_straight_flush cards).1 then (is_straight_flush cards).2
  else if (is_4_of_a_kind cards).1 then (is_4_of_a_kind cards).2
  else if (is_full_house cards).1 then (is_full_house cards).2
  else if (is_flush cards).1 then (is_flush cards).2
  else if (is_straight cards).1 then (is_straight cards).2
  else if (is_3_of_a_kind cards).1 then (is_3_of_a_kind cards).2
  else if (is_2_pairs cards).1 then (is_2_pairs cards).2
  else if (is_1_pair cards).1 then (is_1_pair cards).2
  else (is_high_card cards).2

/-- Reference classifier for exactly 5 cards, written from the spec's
category definitions in §4.2 (including the ace-low straight A-2-3-4-5).
It serves as the brute-force baseline over 5-card sub-combinations. -/
def refCategory5 (cards : List Card) : HandCategory :=
  let ranks := cards.map Prod.snd
  let uniq := uniqueSorted ranks
  let flush := cards.all (fun c => c.1 == (cards.headD (0, 0)).1)
  let straight := (uniq.length == 5) && (isRun uniq || uniq == [0, 1, 2, 3, 12])
  let hasCount := fun n => uniq.any (fun r => ranks.count r == n)
  let npairs := (uniq.filter (fun r => ranks.count r == 2)).length
  if flush && straight && (uniq == [8, 9, 10, 11, 12]) then .RoyalFlush
  else if flush && straight then .StraightFlush
  else if hasCount 4 then .FourOfAKind
  else if hasCount 3 && hasCount 2 then .FullHouse
  else if flush then .Flush
  else if straight then .Straight
  else if hasCount 3 then .ThreeOfAKind
  else if npairs == 2 then .TwoPair
  else if npairs == 1 then .OnePair
  else .HighCard

/-- All length-`n` sub-combinations of a list, in order. -/
def combosLen : Nat → List Card → List (List Card)
  | 0, _ => [[]]
  | _ + 1, [] => []
  | n + 1, c :: t => (combosLen n t).map (fun s => c :: s) ++ combosLen (n + 1) t

/-- Maximum of two categories by strength. -/
def catMax (a b : HandCategory) : HandCategory :=
  if a.toNat ≤ b.toNat then b else a

/-- Best category achievable by any 5-card sub-combination, per the
reference classifier. -/
def bestCategory (cards : List Card) : HandCategory :=
  (combosLen 5 cards).foldl (fun acc s => catMax acc (refCategory5 s)) .HighCard

/-- Seven cards holding two three-of-a-kinds (fives and sevens) and no flush
or straight: the best 5-card subset is a full house. -/
def exTwoTrips : List Card :=
  [(0, 5), (1, 5), (2, 5), (0, 7), (1, 7), (2, 7), (3, 2)]

/-- The wheel A-2-3-4-5 in mixed suits: ranks 12, 0, 1, 2, 3. -/
def exWheel : List Card :=
  [(0, 12), (1, 0), (2, 1), (3, 2), (0, 3)]

/-- A 4-to-8 straight flush in clubs plus an off-suit ace and deuce. -/
def exRoyalBug : List Card :=
  [(0, 4), (0, 5), (0, 6), (0, 7), (0, 8), (1, 12), (1, 0)]

/-- Three fives plus pairs of sevens and nines: a full house whose best pair
is the nines. -/
def exFullHousePairs : List Card :=
  [(0, 5), (1, 5), (2, 5), (0, 7), (1, 7), (0, 9), (1, 9)]

/-- C1: the evaluator does not agree with the brute-force reference over
5-card sub-combinations: on a duplicate-free 7-card input holding two
three-of-a-kinds, `rank_hand_of_player` classifies Three of a Kind while the
best 5-card subset is a Full House (the best hand does have 5 cards). -/
theorem evaluator_vs_brute_force_bug :
    classify exTwoTrips = HandCategory.ThreeOfAKind
    ∧ bestCategory exTwoTrips = HandCategory.FullHouse
    ∧ (bestHand exTwoTrips).length = 5 := by decide

/-- C2: the ace-low straight is not implemented: on A-2-3-4-5 of mixed suits
`is_straight` returns false and the hand is classified High Card, not
Straight. -/
theorem wheel_straight_missing :
    (is_straight exWheel).1 = false
    ∧ classify exWheel = HandCategory.HighCard := by decide

/-- C7: `is_royal_flush` tests the highest rank of the whole hand instead of
the straight flush: a 4-to-8 straight flush plus an off-suit ace is
classified Royal Flush even though no ace of the flush suit is present. -/
theorem royal_flush_offsuit_ace_bug :
    classify exRoyalBug = HandCategory.RoyalFlush
    ∧ (is_flush exRoyalBug).2.all (fun c => c.2 != 12) = true := by decide

/-- C8: `is_full_house` misses both tie-resolution clauses: with two
three-of-a-kinds it reports no full house at all (the hand falls through to
Three of a Kind), and with two candidate pairs it selects the lowest-ranked
pair (sevens) instead of the highest (nines). -/
theorem full_house_detection_bug :
    (is_full_house exTwoTrips).1 = false
    ∧ classify exTwoTrips = HandCategory.ThreeOfAKind
    ∧ (is_full_house exFullHousePairs).2 = [(0, 5), (1, 5), (2, 5), (0, 7), (1, 7)] := by decide

/-! Betting state machine from `game.py`. -/

/-- Player action as held in `PokerSimulator.decision_holder`: the Python
strings `'fold'`, `'check'`, `'raise'`, `'all-in'`. An undecided player is
`none` (`None` in Python). -/
inductive Action
  | fold | check | raiseBet | allin
deriving DecidableEq

/-- Per-hand mutable state of `PokerSimulator` touched by `verify_bet`,
`check` and `distribute_pot`: stacks, current-street bets, amount to call. -/
structure SimState where
  player_money : Nat → Int
  player_bets : Nat → Int
  last_bet : Int
  decision_holder : Nat → Option Action

/-- Model of `PokerSimulator.verify_bet` (`game.py` lines 148-171): clamp the
amount to the stack, move chips to the bet ledger, raise `last_bet` to the
player's new total if larger. Returns the `valid` flag and the new state. -/
def verify_bet (s : SimState) (player : Nat) (amount : Int) : Bool × SimState :=
  if s.player_money player < amount then
    let amt := s.player_money player
    let money := fun q => if q = player then 0 else s.player_money q
    let bets := fun q => if q = player then s.player_bets q + amt else s.player_bets q
    let lb := if s.last_bet < bets player then bets player else s.last_bet
    (false, { s with player_money := money, player_bets := bets, last_bet := lb })
  else
    let money := fun q => if q = player then s.player_money q - amount else s.player_money q
    let bets := fun q => if q = player then s.player_bets q + amount else s.player_bets q
    let lb := if s.last_bet < bets player then bets player else s.last_bet
    (true, { s with player_money := money, player_bets := bets, last_bet := lb })

/-- Model of `PokerSimulator.check` (`game.py` lines 199-212): when the
player's bet does not exceed `last_bet`, bet the difference through
`verify_bet`; otherwise do nothing. -/
def check (s : SimState) (player : Nat) : SimState :=
  if s.player_bets player ≤ s.last_bet then
    let amount := s.last_bet - s.player_bets player
    let s0 := { s with
      last_bet := if s.last_bet < s.player_bets player then s.player_bets player else s.last_bet }
    (verify_bet s0 player amount).2
  else s

/-- Model of `PokerSimulator.player_action` (`game.py` lines 324-339)
specialised to `action == 'check'`: run `check`, then record the decision
string `'check'` for the player. (The other branches perform console I/O or
RNG sampling and are not needed by the claims.) -/
def player_action_check (s : SimState) (player : Nat) : SimState :=
  let s1 := check s player
  { s1 with
    decision_holder := fun q => if q = player then some Action.check else s1.decision_holder q }

/-- Model of `PokerSimulator.distribute_pot` (`game.py` lines 277-286): the
body is a `pass` stub (after printing the winners), so the state is returned
unchanged and no chips ever move. -/
def distribute_pot (s : SimState) (winners : List Nat) : SimState := s

/-- Model of the `players_in` helper of `PokerSimulator.poker_round`
(`game.py` lines 412-417): the players whose decision is not `'fold'`. -/
def players_in (keys : List Nat) (dec : Nat → Option Action) : List Nat :=
  keys.filter (fun p => decide (dec p ≠ some Action.fold))

/-- Model of the between-street reset of `PokerSimulator.poker_round`
(`game.py` line 432): every player in `players_in` is set to `None`,
everyone else keeps their decision. -/
def street_reset (keys : List Nat) (dec : Nat → Option Action) : Nat → Option Action :=
  fun p => if p ∈ players_in keys dec then none else dec p

/-- Decision-map effect of `PokerSimulator.player_action` (`game.py` line
339): `self.decision_holder[player] = action`. -/
def player_action_dec (dec : Nat → Option Action) (p : Nat) (a : Action) : Nat → Option Action :=
  fun q => if q = p then some a else dec q

/-- One iteration of the reset loop in `PokerSimulator.get_players_in_round`
(`game.py` lines 350-352): clear the entry `q` unless it is `'fold'` or
`'all-in'`. -/
def reset_step (d : Nat → Option Action) (q : Nat) : Nat → Option Action :=
  if d q = some Action.fold ∨ d q = some Action.allin then d
  else fun r => if r = q then none else d r

/-- Model of `PokerSimulator.get_players_in_round` (`game.py` lines 341-352):
after a `'raise'` or `'all-in'`, clear every non-terminal decision of the
players strictly before the actor in `order_of_play`. -/
def get_players_in_round (order : List Nat) (dec : Nat → Option Action)
    (p : Nat) (a : Action) : Nat → Option Action :=
  if a = Action.raiseBet ∨ a = Action.allin then
    ((List.range (order.indexOf p)).map (fun i => order.getD i 0)).foldl reset_step dec
  else dec

/-! Helper lemmas about the reset loop. -/

/-- Entries not visited by the reset loop are unchanged. -/
theorem reset_foldl_not_mem (qs : List Nat) (d : Nat → Option Action) (q : Nat)
    (h : q ∉ qs) : qs.foldl reset_step d q = d q := by
  induction qs generalizing d with
  | nil => rfl
  | cons p t ih =>
    have hqp : q ≠ p := fun he => h (he ▸ List.mem_cons_self p t)
    have hqt : q ∉ t := fun ht => h (List.mem_cons_of_mem p ht)
    rw [List.foldl_cons, ih _ hqt]
    unfold reset_step
    split
    · rfl
    · simp [hqp]

/-- A `'fold'` or `'all-in'` entry survives the reset loop unchanged. -/
theorem reset_foldl_terminal (qs : List Nat) (d : Nat → Option Action) (q : Nat)
    (h : d q = some Action.fold ∨ d q = some Action.allin) :
    qs.foldl reset_step d q = d q := by
  induction qs generalizing d with
  | nil => rfl
  | cons p t ih =>
    have hstep : reset_step d p q = d q := by
      unfold reset_step
      split
      · rfl
      · by_cases hqp : q = p
        · subst hqp; simp_all
        · simp [hqp]
    rw [List.foldl_cons, ih _ (by rw [hstep]; exact h), hstep]

/-- A visited entry that is neither `'fold'` nor `'all-in'` is cleared. -/
theorem reset_foldl_mem (qs : List Nat) (d : Nat → Option Action) (q : Nat)
    (hq : q ∈ qs) (h : ¬(d q = some Action.fold ∨ d q = some Action.allin)) :
    qs.foldl reset_step d q = none := by
  induction qs generalizing d with
  | nil => exact absurd hq (List.not_mem_nil q)
  | cons p t ih =>
    rw [List.foldl_cons]
    by_cases hqp : q = p
    · subst hqp
      have hstep : reset_step d q = fun r => if r = q then none else d r := by
        unfold reset_step
        rw [if_neg h]
      by_cases hqt : q ∈ t
      · exact ih _ hqt (by rw [hstep]; simp)
      · rw [reset_foldl_not_mem _ _ _ hqt, hstep]; simp
    · have hqt : q ∈ t := (List.mem_cons.mp hq).resolve_left hqp
      have hstep : reset_step d p q = d q := by
        unfold reset_step
        split
        · rfl
        · simp [hqp]
      exact ih _ hqt (by rw [hstep]; exact h)

/-- Positions before the first occurrence of `p` hold elements other than `p`. -/
theorem getD_ne_of_lt_indexOf (l : List Nat) (p i : Nat) (h : i < l.indexOf p) :
    l.getD i 0 ≠ p := by
  induction l generalizing i with
  | nil => simp [List.indexOf] at h
  | cons a t ih =>
    by_cases hap : a = p
    · subst hap; simp [List.indexOf_cons_self] at h
    · rw [List.indexOf_cons_ne _ (fun he => hap he)] at h
      cases i with
      | zero => simpa using hap
      | succ j =>
        have hj : j < t.indexOf p := by omega
        simpa using ih j hj

/-- An element read at a position below `n` belongs to the `n`-prefix. -/
theorem getD_mem_take (l : List Nat) (i n : Nat) (hin : i < n) (hil : i < l.length) :
    l.getD i 0 ∈ l.take n := by
  induction l generalizing i n with
  | nil => simp at hil
  | cons a t ih =>
    cases n with
    | zero => omega
    | succ m =>
      cases i with
      | zero => simp
      | succ j =>
        have h2 : t.getD j 0 ∈ t.take m := ih j m (by omega) (by simpa using hil)
        rw [List.getD_cons_succ, List.take_succ_cons]
        exact List.mem_cons_of_mem a h2

/-! Claim theorems about the betting state machine. -/

/-- C4: a `'raise'` or `'all-in'` action reopens the betting: the actor's
decision becomes the action itself; every player strictly earlier in turn
order is reset to undecided unless already `'fold'`/`'all-in'` (those keep
their state); every other player, in particular those later in turn order,
keeps their previous decision. -/
theorem raise_reopens_action (order : List Nat) (dec : Nat → Option Action)
    (p : Nat) (a : Action)
    (ha : a = Action.raiseBet ∨ a = Action.allin) :
    get_players_in_round order (player_action_dec dec p a) p a p = some a
    ∧ (∀ i, i < order.indexOf p →
        ((dec (order.getD i 0) = some Action.fold ∨ dec (order.getD i 0) = some Action.allin) →
          get_players_in_round order (player_action_dec dec p a) p a (order.getD i 0)
            = dec (order.getD i 0))
        ∧ (¬(dec (order.getD i 0) = some Action.fold ∨ dec (order.getD i 0) = some Action.allin) →
          get_players_in_round order (player_action_dec dec p a) p a (order.getD i 0) = none))
    ∧ (∀ q, q ∉ order.take (order.indexOf p) → q ≠ p →
        get_players_in_round order (player_action_dec dec p a) p a q = dec q) := by
  unfold get_players_in_round
  rw [if_pos ha]
  refine ⟨?_, ?_, ?_⟩
  · have hp : p ∉ (List.range (order.indexOf p)).map (fun i => order.getD i 0) := by
      intro hmem
      obtain ⟨i, hi, hgi⟩ := List.mem_map.mp hmem
      exact getD_ne_of_lt_indexOf order p i (List.mem_range.mp hi) hgi
    rw [reset_foldl_not_mem _ _ _ hp]
    simp [player_action_dec]
  · intro i hi
    have hqp : order.getD i 0 ≠ p := getD_ne_of_lt_indexOf order p i hi
    have hdec1 : player_action_dec dec p a (order.getD i 0) = dec (order.getD i 0) := by
      unfold player_action_dec
      rw [if_neg hqp]
    constructor
    · intro hterm
      rw [reset_foldl_terminal _ _ _ (by rw [hdec1]; exact hterm), hdec1]
    · intro hterm
      exact reset_foldl_mem _ _ _
        (List.mem_map.mpr ⟨i, List.mem_range.mpr hi, rfl⟩)
        (by rw [hdec1]; exact hterm)
  · intro q hq hqp
    have hnm : q ∉ (List.range (order.indexOf p)).map (fun i => order.getD i 0) := by
      intro hmem
      obtain ⟨i, hi, hgi⟩ := List.mem_map.mp hmem
      have hil : i < order.length :=
        lt_of_lt_of_le (List.mem_range.mp hi) (List.indexOf_le_length)
      exact hq (hgi ▸ getD_mem_take order i (order.indexOf p) (List.mem_range.mp hi) hil)
    rw [reset_foldl_not_mem _ _ _ hnm]
    unfold player_action_dec
    rw [if_neg hqp]

/-- Concrete decision map for the spec's reopening test: P0 and P1 have
called, P2 and P3 are undecided. -/
def decEx4 : Nat → Option Action :=
  fun q => if q = 0 ∨ q = 1 then some Action.check else none

/-- C4 witness: with turn order [0,1,2,3], P0 and P1 called and P2 raising,
P0 and P1 become undecided, P3 stays undecided, P2 is recorded as raised. -/
theorem raise_reopens_action_witness :
    get_players_in_round [0, 1, 2, 3] (player_action_dec decEx4 2 Action.raiseBet)
      2 Action.raiseBet 2 = some Action.raiseBet
    ∧ get_players_in_round [0, 1, 2, 3] (player_action_dec decEx4 2 Action.raiseBet)
      2 Action.raiseBet 0 = none
    ∧ get_players_in_round [0, 1, 2, 3] (player_action_dec decEx4 2 Action.raiseBet)
      2 Action.raiseBet 1 = none
    ∧ get_players_in_round [0, 1, 2, 3] (player_action_dec decEx4 2 Action.raiseBet)
      2 Action.raiseBet 3 = none := by
  have h := raise_reopens_action [0, 1, 2, 3] decEx4 2 Action.raiseBet (Or.inl rfl)
  refine ⟨h.1, ?_, ?_, ?_⟩
  · have h0 := (h.2.1 0 (by decide)).2 (by decide)
    simpa using h0
  · have h1 := (h.2.1 1 (by decide)).2 (by decide)
    simpa using h1
  · have h3 := h.2.2 3 (by decide) (by decide)
    have hd : decEx4 3 = none := by decide
    rw [h3, hd]

/-- C5 amended: behavior of a Check/Call action.  The decision recorded is
always `'check'`; with contribution at or above the amount to call no chips
move; otherwise the shortfall is matched when affordable, and is clamped to
the entire remaining stack when not (never an error) — but the stored
decision stays `'check'`, it is not set to `'all-in'` by the action. -/
theorem check_action_behavior (s : SimState) (p : Nat)
    (h : 0 ≤ s.player_money p) :
    (player_action_check s p).decision_holder p = some Action.check
    ∧ (s.last_bet ≤ s.player_bets p →
        (player_action_check s p).player_money p = s.player_money p
        ∧ (player_action_check s p).player_bets p = s.player_bets p)
    ∧ (s.player_bets p < s.last_bet →
        ((s.last_bet - s.player_bets p ≤ s.player_money p →
            (player_action_check s p).player_bets p = s.last_bet
            ∧ (player_action_check s p).player_money p
                = s.player_money p - (s.last_bet - s.player_bets p))
         ∧ (s.player_money p < s.last_bet - s.player_bets p →
            (player_action_check s p).player_money p = 0
            ∧ (player_action_check s p).player_bets p
                = s.player_bets p + s.player_money p))) := by
  have e1 : (player_action_check s p).decision_holder p = some Action.check := by
    simp [player_action_check]
  by_cases hb : s.player_bets p ≤ s.last_bet
  · have hnb : ¬ s.last_bet < s.player_bets p := not_lt.mpr hb
    by_cases hm2 : s.player_money p < s.last_bet - s.player_bets p
    · have e2 : (player_action_check s p).player_money p = 0 := by
        simp [player_action_check, check, verify_bet, hb, hnb, hm2]
      have e3 : (player_action_check s p).player_bets p
          = s.player_bets p + s.player_money p := by
        simp [player_action_check, check, verify_bet, hb, hnb, hm2]
      refine ⟨e1, ?_, ?_⟩
      · intro hle
        exact absurd hm2 (by omega)
      · intro hlt
        exact ⟨fun haff => absurd hm2 (by omega), fun _ => ⟨e2, e3⟩⟩
    · have e2 : (player_action_check s p).player_money p
          = s.player_money p - (s.last_bet - s.player_bets p) := by
        simp [player_action_check, check, verify_bet, hb, hnb, hm2]
      have e3 : (player_action_check s p).player_bets p
          = s.player_bets p + (s.last_bet - s.player_bets p) := by
        simp [player_action_check, check, verify_bet, hb, hnb, hm2]
      refine ⟨e1, ?_, ?_⟩
      · intro hle
        have hbl : s.player_bets p = s.last_bet := le_antisymm hb hle
        exact ⟨by rw [e2, hbl]; ring, by rw [e3, hbl]; ring⟩
      · intro hlt
        refine ⟨fun _ => ⟨by rw [e3]; ring, by rw [e2]⟩, fun hshort => absurd hshort (by omega)⟩
  · have e2 : (player_action_check s p).player_money p = s.player_money p := by
      simp [player_action_check, check, hb]
    have e3 : (player_action_check s p).player_bets p = s.player_bets p := by
      simp [player_action_check, check, hb]
    refine ⟨e1, fun hle => ⟨e2, e3⟩, fun hlt => absurd hlt (by omega)⟩

/-- Concrete state with a 30-chip stack facing a 100-chip call. -/
def sEx5 : SimState :=
  { player_money := fun _ => 30
    player_bets := fun _ => 0
    last_bet := 100
    decision_holder := fun _ => none }

/-- C5 counterexample: a Check/Call with stack smaller than the shortfall
clamps the chips but records `'check'`, not `'all-in'`, contradicting the
claim that the decision state becomes AllIn instead of Called. -/
theorem check_allin_state_counterexample :
    sEx5.player_money 0 < sEx5.last_bet - sEx5.player_bets 0
    ∧ (player_action_check sEx5 0).player_money 0 = 0
    ∧ (player_action_check sEx5 0).player_bets 0 = 30
    ∧ (player_action_check sEx5 0).decision_holder 0 = some Action.check
    ∧ (player_action_check sEx5 0).decision_holder 0 ≠ some Action.allin := by decide

/-- C5 witness: the amended theorem applied to the 30-chip stack state. -/
theorem check_action_behavior_witness :
    (0 : Int) ≤ sEx5.player_money 0
    ∧ (player_action_check sEx5 0).decision_holder 0 = some Action.check
    ∧ (sEx5.player_money 0 < sEx5.last_bet - sEx5.player_bets 0 →
        (player_action_check sEx5 0).player_money 0 = 0
        ∧ (player_action_check sEx5 0).player_bets 0
            = sEx5.player_bets 0 + sEx5.player_money 0) :=
  ⟨by decide, (check_action_behavior sEx5 0 (by decide)).1,
    ((check_action_behavior sEx5 0 (by decide)).2.2 (by decide)).2⟩

/-- C6 amended: between streets only `'fold'` persists; every player whose
decision is not `'fold'` — including a player who is `'all-in'` — is reset
to undecided by `poker_round`. -/
theorem street_reset_behavior (keys : List Nat) (dec : Nat → Option Action)
    (p : Nat) (hp : p ∈ keys) :
    (dec p = some Action.fold → street_reset keys dec p = some Action.fold)
    ∧ (dec p ≠ some Action.fold → street_reset keys dec p = none) := by
  constructor
  · intro hf
    unfold street_reset players_in
    rw [if_neg]
    · exact hf
    · intro hmem
      have := (List.mem_filter.mp hmem).2
      simp [hf] at this
  · intro hf
    unfold street_reset players_in
    rw [if_pos]
    exact List.mem_filter.mpr ⟨hp, by simpa using hf⟩

/-- Concrete decision map with a folded, an all-in and a called player. -/
def decEx6 : Nat → Option Action :=
  fun q => if q = 0 then some Action.fold
    else if q = 1 then some Action.allin else some Action.check

/-- C6 counterexample: the between-street reset erases an `'all-in'`
decision: player 1 is all-in, yet the reset sets them to undecided,
contradicting the claim that AllIn persists across street transitions. -/
theorem street_reset_allin_counterexample :
    decEx6 1 = some Action.allin
    ∧ street_reset [0, 1, 2] decEx6 1 = none := by decide

/-- C6 witness: the amended theorem applied to the concrete decision map:
the folded player 0 persists, the called player 2 is reset. -/
theorem street_reset_behavior_witness :
    street_reset [0, 1, 2] decEx6 0 = some Action.fold
    ∧ street_reset [0, 1, 2] decEx6 2 = none :=
  ⟨(street_reset_behavior [0, 1, 2] decEx6 0 (by decide)).1 (by decide),
    (street_reset_behavior [0, 1, 2] decEx6 2 (by decide)).2 (by decide)⟩

/-- C10: `verify_bet` keeps the stack non-negative, moves exactly as many
chips into the bet ledger as it removes from the stack (the whole remaining
stack when the requested amount exceeds it), and never decreases
`last_bet`. -/
theorem verify_bet_invariants (s : SimState) (p : Nat) (amount : Int)
    (hamt : 0 ≤ amount) (hm : 0 ≤ s.player_money p) :
    0 ≤ (verify_bet s p amount).2.player_money p
    ∧ (verify_bet s p amount).2.player_bets p - s.player_bets p
        = s.player_money p - (verify_bet s p amount).2.player_money p
    ∧ (s.player_money p < amount →
        (verify_bet s p amount).2.player_bets p - s.player_bets p = s.player_money p)
    ∧ s.last_bet ≤ (verify_bet s p amount).2.last_bet := by
  unfold verify_bet
  split <;> refine ⟨?_, ?_, ?_, ?_⟩ <;> simp_all <;> split <;> omega

/-- Concrete state for the `verify_bet` witness: 50-chip stack, 20 to call. -/
def sEx10 : SimState :=
  { player_money := fun _ => 50
    player_bets := fun _ => 0
    last_bet := 20
    decision_holder := fun _ => none }

/-- C10 witness: betting 80 from a 50-chip stack moves exactly 50 chips. -/
theorem verify_bet_invariants_witness :
    0 ≤ (verify_bet sEx10 0 80).2.player_money 0
    ∧ (verify_bet sEx10 0 80).2.player_bets 0 - sEx10.player_bets 0
        = sEx10.player_money 0 - (verify_bet sEx10 0 80).2.player_money 0
    ∧ (sEx10.player_money 0 < 80 →
        (verify_bet sEx10 0 80).2.player_bets 0 - sEx10.player_bets 0 = sEx10.player_money 0)
    ∧ sEx10.last_bet ≤ (verify_bet sEx10 0 80).2.last_bet :=
  verify_bet_invariants sEx10 0 80 (by decide) (by decide)

/-- Concrete hand-end state: two players, each contributed 300, stacks 700. -/
def sPot : SimState :=
  { player_money := fun _ => 700
    player_bets := fun _ => 300
    last_bet := 300
    decision_holder := fun _ => some Action.check }

/-- C3: `distribute_pot` is a `pass` stub: with a 600-chip pot and player 0
the sole winner, no chips move at all — the winner's stack is unchanged and
the pot is never awarded, let alone split or tiered into side pots. -/
theorem distribute_pot_stub :
    sPot.player_bets 0 + sPot.player_bets 1 = 600
    ∧ (distribute_pot sPot [0]).player_money 0 = sPot.player_money 0
    ∧ (distribute_pot sPot [0]).player_money 1 = sPot.player_money 1
    ∧ (distribute_pot sPot [0]).player_bets 0 = sPot.player_bets 0 := by
  exact ⟨by decide, rfl, rfl, rfl⟩

end TexasHoldem
